import Mathlib

/-!
Shallow embedding of the currender camera module
(`src/include/currender/camera.h`) and of the renderer front end
(`src/include/renderer.h`), with the verification of the specified
properties.  Float arithmetic is idealised as real arithmetic; C++ `int`
is `Int`; C++ integer division (truncation toward zero) is `Int.tdiv`.
-/

namespace Currender

noncomputable section

/-- A 3-vector of reals, modelling `Eigen::Vector3f` with `float`
idealised to `ℝ`. -/
@[ext]
structure Vec3 where
  x : ℝ
  y : ℝ
  z : ℝ

/-- A 2-vector of reals, modelling `Eigen::Vector2f`. -/
@[ext]
structure Vec2 where
  x : ℝ
  y : ℝ

namespace Vec3

/-- Componentwise vector addition. -/
def add (a b : Vec3) : Vec3 := ⟨a.x + b.x, a.y + b.y, a.z + b.z⟩

/-- Scalar multiplication `s * v`. -/
def smul (s : ℝ) (v : Vec3) : Vec3 := ⟨s * v.x, s * v.y, s * v.z⟩

/-- Eigen `squaredNorm`: the sum of squared components. -/
def normSq (v : Vec3) : ℝ := v.x ^ 2 + v.y ^ 2 + v.z ^ 2

/-- Eigen `normalize` / `normalized`: divide each component by the
Euclidean norm. -/
def normalize (v : Vec3) : Vec3 :=
  ⟨v.x / Real.sqrt v.normSq, v.y / Real.sqrt v.normSq, v.z / Real.sqrt v.normSq⟩

end Vec3

/-- A 3×3 matrix stored by columns, modelling the rotation block of
`Eigen::Affine3d` (cast to float as `c2w_R_f_`). -/
structure Mat3 where
  c0 : Vec3
  c1 : Vec3
  c2 : Vec3

/-- Matrix–vector product: `v.x * col0 + v.y * col1 + v.z * col2`. -/
def Mat3.apply (m : Mat3) (v : Vec3) : Vec3 :=
  Vec3.add (Vec3.add (Vec3.smul v.x m.c0) (Vec3.smul v.y m.c1)) (Vec3.smul v.z m.c2)

/-- Modelled from the spec: the `radians` helper declared in
`currender/common.h`, which is not among the source files; the standard
degree-to-radian conversion the spec's fov formula assumes. -/
def radians (deg : ℝ) : ℝ := deg * Real.pi / 180

/-- Modelled from the spec: the `degrees` helper declared in
`currender/common.h`, which is not among the source files; the standard
radian-to-degree conversion the spec's fov formula assumes. -/
def degrees (rad : ℝ) : ℝ := rad * 180 / Real.pi

/-- Row-major per-pixel table of `InitRayTable`: rows `y = 0 .. h-1`,
each row the entries `f x y` for `x = 0 .. w-1`; the entry for pixel
`(x, y)` sits at index `y * w + x`. -/
def mkRayTable (f : ℕ → ℕ → Vec3) (w : ℕ) : ℕ → List Vec3
  | 0 => []
  | h + 1 => mkRayTable f w h ++ (List.range w).map fun x => f x h

/-- `PinholeCamera`: the `Camera` base fields (size, camera-to-world pose
rotation/translation and its cached columns) together with the pinhole
intrinsics and the four per-pixel ray tables. -/
structure PinholeCamera where
  width : Int
  height : Int
  c2w_R : Mat3
  c2w_t : Vec3
  x_direc : Vec3
  y_direc : Vec3
  z_direc : Vec3
  principal_point : Vec2
  focal_length : Vec2
  org_ray_c_table : List Vec3
  org_ray_w_table : List Vec3
  ray_c_table : List Vec3
  ray_w_table : List Vec3

namespace PinholeCamera

/-- `org_ray_c(float, float)`: the camera-frame ray origin is the
coordinate origin, for any pixel coordinate. -/
def org_ray_cF (_cam : PinholeCamera) (_x _y : ℝ) : Vec3 := ⟨0, 0, 0⟩

/-- `org_ray_w(float, float)`: the world-frame ray origin is the pose
translation `c2w_t_f_`. -/
def org_ray_wF (cam : PinholeCamera) (_x _y : ℝ) : Vec3 := cam.c2w_t

/-- `ray_c(float, float)`: the normalized direction
`((x−cx)/fx, (y−cy)/fy, 1)`. -/
def ray_cF (cam : PinholeCamera) (x y : ℝ) : Vec3 :=
  Vec3.normalize ⟨(x - cam.principal_point.x) / cam.focal_length.x,
                  (y - cam.principal_point.y) / cam.focal_length.y, 1⟩

/-- `ray_w(float, float)`: the pose rotation applied to `ray_c`. -/
def ray_wF (cam : PinholeCamera) (x y : ℝ) : Vec3 :=
  cam.c2w_R.apply (cam.ray_cF x y)

/-- `org_ray_c(int, int)`: table lookup at index `y * width + x`. -/
def org_ray_cI (cam : PinholeCamera) (x y : Int) : Vec3 :=
  cam.org_ray_c_table.getD (y * cam.width + x).toNat ⟨0, 0, 0⟩

/-- `org_ray_w(int, int)`: table lookup at index `y * width + x`. -/
def org_ray_wI (cam : PinholeCamera) (x y : Int) : Vec3 :=
  cam.org_ray_w_table.getD (y * cam.width + x).toNat ⟨0, 0, 0⟩

/-- `ray_c(int, int)`: table lookup at index `y * width + x`. -/
def ray_cI (cam : PinholeCamera) (x y : Int) : Vec3 :=
  cam.ray_c_table.getD (y * cam.width + x).toNat ⟨0, 0, 0⟩

/-- `ray_w(int, int)`: table lookup at index `y * width + x`. -/
def ray_wI (cam : PinholeCamera) (x y : Int) : Vec3 :=
  cam.ray_w_table.getD (y * cam.width + x).toNat ⟨0, 0, 0⟩

/-- `PinholeCamera::InitRayTable`: resize the four tables to
`width * height` and fill entry `(x, y)` with the continuous accessor
evaluated at `(float(x), float(y))`. -/
def InitRayTable (cam : PinholeCamera) : PinholeCamera :=
  { cam with
    org_ray_c_table :=
      mkRayTable (fun x y => cam.org_ray_cF x y) cam.width.toNat cam.height.toNat
    org_ray_w_table :=
      mkRayTable (fun x y => cam.org_ray_wF x y) cam.width.toNat cam.height.toNat
    ray_c_table :=
      mkRayTable (fun x y => cam.ray_cF x y) cam.width.toNat cam.height.toNat
    ray_w_table :=
      mkRayTable (fun x y => cam.ray_wF x y) cam.width.toNat cam.height.toNat }

/-- `PinholeCamera::set_size`: store the new size, then `InitRayTable`. -/
def set_size (cam : PinholeCamera) (width height : Int) : PinholeCamera :=
  InitRayTable { cam with width := width, height := height }

/-- `PinholeCamera::set_c2w`: store the pose and its cached float
rotation, translation and axis columns, then `InitRayTable`. -/
def set_c2w (cam : PinholeCamera) (R : Mat3) (t : Vec3) : PinholeCamera :=
  InitRayTable { cam with
    c2w_R := R, c2w_t := t,
    x_direc := R.c0, y_direc := R.c1, z_direc := R.c2 }

/-- `PinholeCamera::set_principal_point`, then `InitRayTable`. -/
def set_principal_point (cam : PinholeCamera) (pp : Vec2) : PinholeCamera :=
  InitRayTable { cam with principal_point := pp }

/-- `PinholeCamera::set_focal_length`, then `InitRayTable`. -/
def set_focal_length (cam : PinholeCamera) (fl : Vec2) : PinholeCamera :=
  InitRayTable { cam with focal_length := fl }

/-- `PinholeCamera::set_fov_x`: `fl[0] = width * 0.5 / tan(radians(deg) * 0.5)`,
copied to `fl[1]`, then `InitRayTable`. -/
def set_fov_x (cam : PinholeCamera) (fov_x_deg : ℝ) : PinholeCamera :=
  InitRayTable { cam with
    focal_length :=
      ⟨(cam.width : ℝ) * 0.5 / Real.tan (radians fov_x_deg * 0.5),
       (cam.width : ℝ) * 0.5 / Real.tan (radians fov_x_deg * 0.5)⟩ }

/-- `PinholeCamera::set_fov_y`: `fl[1] = height * 0.5 / tan(radians(deg) * 0.5)`,
copied to `fl[0]`, then `InitRayTable`. -/
def set_fov_y (cam : PinholeCamera) (fov_y_deg : ℝ) : PinholeCamera :=
  InitRayTable { cam with
    focal_length :=
      ⟨(cam.height : ℝ) * 0.5 / Real.tan (radians fov_y_deg * 0.5),
       (cam.height : ℝ) * 0.5 / Real.tan (radians fov_y_deg * 0.5)⟩ }

/-- `PinholeCamera::fov_x`: `degrees(2 * atan(width * 0.5 / fl[0]))`. -/
def fov_x (cam : PinholeCamera) : ℝ :=
  degrees (2 * Real.arctan ((cam.width : ℝ) * 0.5 / cam.focal_length.x))

/-- `PinholeCamera::fov_y`: `degrees(2 * atan(height * 0.5 / fl[1]))`. -/
def fov_y (cam : PinholeCamera) : ℝ :=
  degrees (2 * Real.arctan ((cam.height : ℝ) * 0.5 / cam.focal_length.y))

/-- `Project` overload writing a `Vector3f`: image point with the depth
in the third component. -/
def Project3 (cam : PinholeCamera) (camera_p : Vec3) : Vec3 :=
  ⟨cam.focal_length.x / camera_p.z * camera_p.x + cam.principal_point.x,
   cam.focal_length.y / camera_p.z * camera_p.y + cam.principal_point.y,
   camera_p.z⟩

/-- `Project` overload writing a `Vector2f`: the image point only. -/
def Project2 (cam : PinholeCamera) (camera_p : Vec3) : Vec2 :=
  ⟨cam.focal_length.x / camera_p.z * camera_p.x + cam.principal_point.x,
   cam.focal_length.y / camera_p.z * camera_p.y + cam.principal_point.y⟩

/-- `Project` overload writing a `Vector2f` and a separate depth. -/
def Project2d (cam : PinholeCamera) (camera_p : Vec3) : Vec2 × ℝ :=
  (⟨cam.focal_length.x / camera_p.z * camera_p.x + cam.principal_point.x,
    cam.focal_length.y / camera_p.z * camera_p.y + cam.principal_point.y⟩,
   camera_p.z)

/-- `Unproject` overload taking a `Vector3f` whose third component is the
depth. -/
def Unproject3 (cam : PinholeCamera) (image_p : Vec3) : Vec3 :=
  ⟨(image_p.x - cam.principal_point.x) * image_p.z / cam.focal_length.x,
   (image_p.y - cam.principal_point.y) * image_p.z / cam.focal_length.y,
   image_p.z⟩

/-- `Unproject` overload taking a `Vector2f` image point and a depth. -/
def Unproject2d (cam : PinholeCamera) (image_p : Vec2) (d : ℝ) : Vec3 :=
  ⟨(image_p.x - cam.principal_point.x) * d / cam.focal_length.x,
   (image_p.y - cam.principal_point.y) * d / cam.focal_length.y,
   d⟩

end PinholeCamera

/-- `OrthoCamera`: the `Camera` base fields together with the four
per-pixel ray tables; the orthographic camera has no intrinsics. -/
structure OrthoCamera where
  width : Int
  height : Int
  c2w_R : Mat3
  c2w_t : Vec3
  x_direc : Vec3
  y_direc : Vec3
  z_direc : Vec3
  org_ray_c_table : List Vec3
  org_ray_w_table : List Vec3
  ray_c_table : List Vec3
  ray_w_table : List Vec3

namespace OrthoCamera

/-- `OrthoCamera::org_ray_c(float, float)`:
`(x − width / 2, y − height / 2, 0)` with C++ integer division
(truncation toward zero) on `width / 2` and `height / 2`. -/
def org_ray_cF (cam : OrthoCamera) (x y : ℝ) : Vec3 :=
  ⟨x - ((Int.tdiv cam.width 2 : Int) : ℝ),
   y - ((Int.tdiv cam.height 2 : Int) : ℝ), 0⟩

/-- `OrthoCamera::org_ray_w(float, float)`: the pose translation offset
by `(x − width * 0.5) * x_direc + (y − height * 0.5) * y_direc`. -/
def org_ray_wF (cam : OrthoCamera) (x y : ℝ) : Vec3 :=
  Vec3.add
    (Vec3.add cam.c2w_t (Vec3.smul (x - (cam.width : ℝ) * 0.5) cam.x_direc))
    (Vec3.smul (y - (cam.height : ℝ) * 0.5) cam.y_direc)

/-- `OrthoCamera::ray_c(float, float)`: the constant direction `(0, 0, 1)`. -/
def ray_cF (_cam : OrthoCamera) (_x _y : ℝ) : Vec3 := ⟨0, 0, 1⟩

/-- `OrthoCamera::ray_w(float, float)`: the pose's third rotation column
`z_direc_`, for any pixel coordinate. -/
def ray_wF (cam : OrthoCamera) (_x _y : ℝ) : Vec3 := cam.z_direc

/-- `OrthoCamera::org_ray_c(int, int)`: table lookup. -/
def org_ray_cI (cam : OrthoCamera) (x y : Int) : Vec3 :=
  cam.org_ray_c_table.getD (y * cam.width + x).toNat ⟨0, 0, 0⟩

/-- `OrthoCamera::org_ray_w(int, int)`: table lookup. -/
def org_ray_wI (cam : OrthoCamera) (x y : Int) : Vec3 :=
  cam.org_ray_w_table.getD (y * cam.width + x).toNat ⟨0, 0, 0⟩

/-- `OrthoCamera::ray_c(int, int)`: table lookup. -/
def ray_cI (cam : OrthoCamera) (x y : Int) : Vec3 :=
  cam.ray_c_table.getD (y * cam.width + x).toNat ⟨0, 0, 0⟩

/-- `OrthoCamera::ray_w(int, int)`: table lookup. -/
def ray_wI (cam : OrthoCamera) (x y : Int) : Vec3 :=
  cam.ray_w_table.getD (y * cam.width + x).toNat ⟨0, 0, 0⟩

/-- `OrthoCamera::InitRayTable`: resize the four tables to
`width * height` and fill entry `(x, y)` with the continuous accessor
evaluated at `(float(x), float(y))`. -/
def InitRayTable (cam : OrthoCamera) : OrthoCamera :=
  { cam with
    org_ray_c_table :=
      mkRayTable (fun x y => cam.org_ray_cF x y) cam.width.toNat cam.height.toNat
    org_ray_w_table :=
      mkRayTable (fun x y => cam.org_ray_wF x y) cam.width.toNat cam.height.toNat
    ray_c_table :=
      mkRayTable (fun x y => cam.ray_cF x y) cam.width.toNat cam.height.toNat
    ray_w_table :=
      mkRayTable (fun x y => cam.ray_wF x y) cam.width.toNat cam.height.toNat }

/-- `OrthoCamera::set_size`: store the new size, then `InitRayTable`. -/
def set_size (cam : OrthoCamera) (width height : Int) : OrthoCamera :=
  InitRayTable { cam with width := width, height := height }

/-- `OrthoCamera::set_c2w`: store the pose and its cached columns, then
`InitRayTable`. -/
def set_c2w (cam : OrthoCamera) (R : Mat3) (t : Vec3) : OrthoCamera :=
  InitRayTable { cam with
    c2w_R := R, c2w_t := t,
    x_direc := R.c0, y_direc := R.c1, z_direc := R.c2 }

end OrthoCamera

/-- A shared camera reference held by the renderer (`shared_ptr<Camera>`
pointing at one of the two concrete camera classes). -/
inductive CameraRef where
  | pinholeCam : PinholeCamera → CameraRef
  | orthoCam : OrthoCamera → CameraRef

/-- The referenced camera's width. -/
def CameraRef.width : CameraRef → Int
  | .pinholeCam c => c.width
  | .orthoCam c => c.width

/-- The referenced camera's height. -/
def CameraRef.height : CameraRef → Int
  | .pinholeCam c => c.height
  | .orthoCam c => c.height

/-- An output image buffer: dimensions plus flat row-major pixel data,
modelling `Image3b` / `Image1w` / `Image1b` (their class is declared
outside the source files). -/
structure ImageBuf (α : Type) where
  width : ℕ
  height : ℕ
  data : List α

/-- The renderer's readiness state: `mesh_initialized_` is set by a
successful `prepare_mesh`, and `camera_` is null until `set_camera`. -/
structure Renderer where
  mesh_initialized : Bool
  camera : Option CameraRef

/-- Modelled from the spec: the body of `Renderer::render` is not among
the source files (renderer.h declares it only).  Spec §4.2/§7: render
fails with a precondition error — returning `false` and writing nothing
to the three outputs — when the mesh is not prepared or no camera is
set; otherwise it allocates and clears the three output buffers to the
camera's resolution (every pixel gets a value; an unhit pixel keeps
depth 0, background color 0, mask 0) and returns `true`. -/
def Renderer.render (r : Renderer) (color : ImageBuf (ℕ × ℕ × ℕ))
    (depth : ImageBuf ℕ) (mask : ImageBuf ℕ) :
    Bool × ImageBuf (ℕ × ℕ × ℕ) × ImageBuf ℕ × ImageBuf ℕ :=
  match r.camera with
  | none => (false, color, depth, mask)
  | some cam =>
    if r.mesh_initialized then
      let w := cam.width.toNat
      let h := cam.height.toNat
      (true,
       ⟨w, h, List.replicate (w * h) (0, 0, 0)⟩,
       ⟨w, h, List.replicate (w * h) 0⟩,
       ⟨w, h, List.replicate (w * h) 0⟩)
    else (false, color, depth, mask)

/-- The camera invariant for `PinholeCamera`: the four tables have
exactly `width * height` entries, and at every in-bounds integer pixel
the discrete accessor returns what the continuous accessor computes at
`(float(x), float(y))` under the current size/pose/intrinsics. -/
def PinholeCamera.TablesMatch (cam : PinholeCamera) : Prop :=
  cam.org_ray_c_table.length = cam.width.toNat * cam.height.toNat ∧
  cam.org_ray_w_table.length = cam.width.toNat * cam.height.toNat ∧
  cam.ray_c_table.length = cam.width.toNat * cam.height.toNat ∧
  cam.ray_w_table.length = cam.width.toNat * cam.height.toNat ∧
  ∀ x y : Int, 0 ≤ x → x < cam.width → 0 ≤ y → y < cam.height →
    cam.org_ray_cI x y = cam.org_ray_cF x y ∧
    cam.org_ray_wI x y = cam.org_ray_wF x y ∧
    cam.ray_cI x y = cam.ray_cF x y ∧
    cam.ray_wI x y = cam.ray_wF x y

/-- The camera invariant for `OrthoCamera`, as for the pinhole camera. -/
def OrthoCamera.TablesMatch (cam : OrthoCamera) : Prop :=
  cam.org_ray_c_table.length = cam.width.toNat * cam.height.toNat ∧
  cam.org_ray_w_table.length = cam.width.toNat * cam.height.toNat ∧
  cam.ray_c_table.length = cam.width.toNat * cam.height.toNat ∧
  cam.ray_w_table.length = cam.width.toNat * cam.height.toNat ∧
  ∀ x y : Int, 0 ≤ x → x < cam.width → 0 ≤ y → y < cam.height →
    cam.org_ray_cI x y = cam.org_ray_cF x y ∧
    cam.org_ray_wI x y = cam.org_ray_wF x y ∧
    cam.ray_cI x y = cam.ray_cF x y ∧
    cam.ray_wI x y = cam.ray_wF x y

/-- The identity rotation used to instantiate the proved properties. -/
def matId : Mat3 := ⟨⟨1, 0, 0⟩, ⟨0, 1, 0⟩, ⟨0, 0, 1⟩⟩

/-- A concrete 2×2 pinhole camera with identity pose, principal point
`(1, 1)` and focal length `(1, 1)`, used to instantiate the proved
properties at a concrete input. -/
def pinEx : PinholeCamera :=
  { width := 2, height := 2, c2w_R := matId, c2w_t := ⟨0, 0, 0⟩,
    x_direc := ⟨1, 0, 0⟩, y_direc := ⟨0, 1, 0⟩, z_direc := ⟨0, 0, 1⟩,
    principal_point := ⟨1, 1⟩, focal_length := ⟨1, 1⟩,
    org_ray_c_table := [], org_ray_w_table := [],
    ray_c_table := [], ray_w_table := [] }

/-- A concrete 4×4 orthographic camera with identity pose, used to
instantiate the proved properties at a concrete input. -/
def orthoEx : OrthoCamera :=
  { width := 4, height := 4, c2w_R := matId, c2w_t := ⟨0, 0, 0⟩,
    x_direc := ⟨1, 0, 0⟩, y_direc := ⟨0, 1, 0⟩, z_direc := ⟨0, 0, 1⟩,
    org_ray_c_table := [], org_ray_w_table := [],
    ray_c_table := [], ray_w_table := [] }

/-! ### Ray-table lemmas -/

theorem mkRayTable_length (f : ℕ → ℕ → Vec3) (w h : ℕ) :
    (mkRayTable f w h).length = h * w := by
  induction h with
  | zero => simp [mkRayTable]
  | succ h ih => simp [mkRayTable, ih, Nat.succ_mul]

theorem mkRayTable_getD (f : ℕ → ℕ → Vec3) (w h x y : ℕ) (hx : x < w)
    (hy : y < h) (d : Vec3) :
    (mkRayTable f w h).getD (y * w + x) d = f x y := by
  induction h with
  | zero => omega
  | succ h ih =>
    rcases Nat.lt_or_ge y h with h1 | h1
    · have hlt : y * w + x < (mkRayTable f w h).length := by
        rw [mkRayTable_length]
        calc y * w + x < y * w + w := by omega
        _ = (y + 1) * w := by ring
        _ ≤ h * w := Nat.mul_le_mul_right _ (by omega)
      rw [show mkRayTable f w (h + 1)
            = mkRayTable f w h ++ (List.range w).map (fun x => f x h) from rfl,
          List.getD_eq_getElem?_getD, List.getElem?_append, if_pos hlt,
          ← List.getD_eq_getElem?_getD]
      exact ih h1
    · have hy' : y = h := by omega
      subst hy'
      rw [show mkRayTable f w (y + 1)
            = mkRayTable f w y ++ (List.range w).map (fun x => f x y) from rfl,
          List.getD_eq_getElem?_getD, List.getElem?_append,
          mkRayTable_length,
          if_neg (Nat.not_lt.mpr (Nat.le_add_right _ _)),
          Nat.add_sub_cancel_left]
      simp [List.getElem?_map, List.getElem?_range, hx]

/-- Looking up pixel `(x, y)` in a table built from the continuous
accessor `g` returns `g` at `(float(x), float(y))`. -/
theorem mkRayTable_lookup (g : ℝ → ℝ → Vec3) (w h : Int) (x y : Int)
    (hx0 : 0 ≤ x) (hxw : x < w) (hy0 : 0 ≤ y) (hyh : y < h) (d : Vec3) :
    (mkRayTable (fun a b => g a b) w.toNat h.toNat).getD (y * w + x).toNat d
      = g x y := by
  have hw0 : 0 ≤ w := le_of_lt (lt_of_le_of_lt hx0 hxw)
  rcases Int.eq_ofNat_of_zero_le hx0 with ⟨n, rfl⟩
  rcases Int.eq_ofNat_of_zero_le hy0 with ⟨m, rfl⟩
  rcases Int.eq_ofNat_of_zero_le hw0 with ⟨W, hW⟩
  subst hW
  have hidx : ((m : Int) * (W : Int) + (n : Int)).toNat = m * W + n := by
    rw [← Nat.cast_mul, ← Nat.cast_add, Int.toNat_natCast]
  rw [hidx, Int.toNat_natCast]
  have hn : n < W := by exact_mod_cast hxw
  have hm : m < h.toNat := by omega
  rw [mkRayTable_getD _ _ _ _ _ hn hm]
  norm_num

/-- `InitRayTable` establishes the pinhole camera invariant. -/
theorem PinholeCamera.tablesMatch_init_pinhole (cam : PinholeCamera) :
    cam.InitRayTable.TablesMatch := by
  refine ⟨?_, ?_, ?_, ?_, fun x y hx0 hxw hy0 hyh => ⟨?_, ?_, ?_, ?_⟩⟩
  · simp [InitRayTable, mkRayTable_length, Nat.mul_comm]
  · simp [InitRayTable, mkRayTable_length, Nat.mul_comm]
  · simp [InitRayTable, mkRayTable_length, Nat.mul_comm]
  · simp [InitRayTable, mkRayTable_length, Nat.mul_comm]
  · exact mkRayTable_lookup (fun a b => cam.org_ray_cF a b)
      cam.width cam.height x y hx0 hxw hy0 hyh _
  · exact mkRayTable_lookup (fun a b => cam.org_ray_wF a b)
      cam.width cam.height x y hx0 hxw hy0 hyh _
  · exact mkRayTable_lookup (fun a b => cam.ray_cF a b)
      cam.width cam.height x y hx0 hxw hy0 hyh _
  · exact mkRayTable_lookup (fun a b => cam.ray_wF a b)
      cam.width cam.height x y hx0 hxw hy0 hyh _

/-- `InitRayTable` establishes the orthographic camera invariant. -/
theorem OrthoCamera.tablesMatch_init_ortho (cam : OrthoCamera) :
    cam.InitRayTable.TablesMatch := by
  refine ⟨?_, ?_, ?_, ?_, fun x y hx0 hxw hy0 hyh => ⟨?_, ?_, ?_, ?_⟩⟩
  · simp [InitRayTable, mkRayTable_length, Nat.mul_comm]
  · simp [InitRayTable, mkRayTable_length, Nat.mul_comm]
  · simp [InitRayTable, mkRayTable_length, Nat.mul_comm]
  · simp [InitRayTable, mkRayTable_length, Nat.mul_comm]
  · exact mkRayTable_lookup (fun a b => cam.org_ray_cF a b)
      cam.width cam.height x y hx0 hxw hy0 hyh _
  · exact mkRayTable_lookup (fun a b => cam.org_ray_wF a b)
      cam.width cam.height x y hx0 hxw hy0 hyh _
  · exact mkRayTable_lookup (fun a b => cam.ray_cF a b)
      cam.width cam.height x y hx0 hxw hy0 hyh _
  · exact mkRayTable_lookup (fun a b => cam.ray_wF a b)
      cam.width cam.height x y hx0 hxw hy0 hyh _

/-- A vector of nonzero norm normalizes to a unit vector. -/
theorem Vec3.normSq_normalize (v : Vec3) (hv : v.normSq ≠ 0) :
    (Vec3.normalize v).normSq = 1 := by
  have hs0 : (0 : ℝ) ≤ v.normSq := by
    simp only [Vec3.normSq]; positivity
  show (v.x / Real.sqrt v.normSq) ^ 2 + (v.y / Real.sqrt v.normSq) ^ 2 +
      (v.z / Real.sqrt v.normSq) ^ 2 = 1
  rw [div_pow, div_pow, div_pow, Real.sq_sqrt hs0, div_add_div_same,
      div_add_div_same]
  exact div_self hv

/-! ### Claim theorems -/

/-- C1: after any mutation of a `PinholeCamera` (`set_size`, `set_c2w`,
`set_principal_point`, `set_focal_length`, `set_fov_x`, `set_fov_y`) or
of an `OrthoCamera` (`set_size`, `set_c2w`), all four per-pixel tables
have exactly width × height entries and, at every integer pixel
`(x, y)` with `0 ≤ x < width` and `0 ≤ y < height`, each discrete
accessor returns exactly the value the corresponding continuous
accessor computes at `(float(x), float(y))` under the current
size/pose/intrinsics; in particular a pose change after a resize (the
`set_c2w ∘ set_size` conjuncts) leaves no table at a stale size. -/
theorem mutations_keep_ray_tables_consistent
    (cam : PinholeCamera) (ocam : OrthoCamera) (w h : Int) (R : Mat3)
    (t : Vec3) (pp fl : Vec2) (deg : ℝ) (hw : 0 ≤ w) (hh : 0 ≤ h) :
    (cam.set_size w h).TablesMatch ∧
    (cam.set_c2w R t).TablesMatch ∧
    (cam.set_principal_point pp).TablesMatch ∧
    (cam.set_focal_length fl).TablesMatch ∧
    (cam.set_fov_x deg).TablesMatch ∧
    (cam.set_fov_y deg).TablesMatch ∧
    ((cam.set_size w h).set_c2w R t).TablesMatch ∧
    (ocam.set_size w h).TablesMatch ∧
    (ocam.set_c2w R t).TablesMatch ∧
    ((ocam.set_size w h).set_c2w R t).TablesMatch :=
  ⟨PinholeCamera.tablesMatch_init_pinhole _,
   PinholeCamera.tablesMatch_init_pinhole _,
   PinholeCamera.tablesMatch_init_pinhole _,
   PinholeCamera.tablesMatch_init_pinhole _,
   PinholeCamera.tablesMatch_init_pinhole _,
   PinholeCamera.tablesMatch_init_pinhole _,
   PinholeCamera.tablesMatch_init_pinhole _,
   OrthoCamera.tablesMatch_init_ortho _,
   OrthoCamera.tablesMatch_init_ortho _,
   OrthoCamera.tablesMatch_init_ortho _⟩

/-- C1 witness: the mutation consistency instantiated on the concrete
cameras at size 3 × 2, identity pose, concrete intrinsics and a 60
degree field of view. -/
theorem mutations_keep_ray_tables_consistent_witness :
    (pinEx.set_size 3 2).TablesMatch ∧
    (pinEx.set_c2w matId ⟨1, 2, 3⟩).TablesMatch ∧
    (pinEx.set_principal_point ⟨0.5, 0.5⟩).TablesMatch ∧
    (pinEx.set_focal_length ⟨2, 2⟩).TablesMatch ∧
    (pinEx.set_fov_x 60).TablesMatch ∧
    (pinEx.set_fov_y 60).TablesMatch ∧
    ((pinEx.set_size 3 2).set_c2w matId ⟨1, 2, 3⟩).TablesMatch ∧
    (orthoEx.set_size 3 2).TablesMatch ∧
    (orthoEx.set_c2w matId ⟨1, 2, 3⟩).TablesMatch ∧
    ((orthoEx.set_size 3 2).set_c2w matId ⟨1, 2, 3⟩).TablesMatch :=
  mutations_keep_ray_tables_consistent pinEx orthoEx 3 2 matId ⟨1, 2, 3⟩
    ⟨0.5, 0.5⟩ ⟨2, 2⟩ 60 (by decide) (by decide)

/-- C4: for every pinhole camera and pixel coordinate, `org_ray_c` is
the coordinate origin, `org_ray_w` the pose translation, `ray_c` the
normalized direction `((x−cx)/fx, (y−cy)/fy, 1)` (its squared norm is
1), and `ray_w` the pose rotation applied to the already-normalized
camera direction. -/
theorem pinhole_ray_accessor_formulas (cam : PinholeCamera) (x y : ℝ) :
    cam.org_ray_cF x y = ⟨0, 0, 0⟩ ∧
    cam.org_ray_wF x y = cam.c2w_t ∧
    cam.ray_cF x y = Vec3.normalize
      ⟨(x - cam.principal_point.x) / cam.focal_length.x,
       (y - cam.principal_point.y) / cam.focal_length.y, 1⟩ ∧
    (cam.ray_cF x y).normSq = 1 ∧
    cam.ray_wF x y = cam.c2w_R.apply (cam.ray_cF x y) := by
  refine ⟨rfl, rfl, rfl, ?_, rfl⟩
  have hs : (0 : ℝ) <
      (⟨(x - cam.principal_point.x) / cam.focal_length.x,
        (y - cam.principal_point.y) / cam.focal_length.y, 1⟩ : Vec3).normSq := by
    simp only [Vec3.normSq]
    positivity
  exact Vec3.normSq_normalize _ hs.ne'

/-- C10: after `set_fov_x` or `set_fov_y`, the two focal-length channels
are equal — each setter derives one channel from the angle and copies it
to the other, so a single `set_fov` call always produces square pixels. -/
theorem set_fov_equalizes_focal_channels (cam : PinholeCamera) (deg : ℝ) :
    (cam.set_fov_x deg).focal_length.x = (cam.set_fov_x deg).focal_length.y ∧
    (cam.set_fov_y deg).focal_length.x = (cam.set_fov_y deg).focal_length.y :=
  ⟨rfl, rfl⟩

/-- C3: for every camera-space point with positive depth, every
`Project` overload computes `image = focal_length ⊙ (x, y) / z +
principal_point` and reports the depth as exactly `z`, and both
`Unproject` overloads compute the algebraic inverse
`((image.x − cx) · d / fx, (image.y − cy) · d / fy, d)`; no guard
exists in `Project`, so `z ≤ 0` is outside the stated contract. -/
theorem pinhole_project_unproject_formulas (cam : PinholeCamera)
    (p q : Vec3) (ip : Vec2) (d : ℝ) (hz : 0 < p.z) :
    cam.Project3 p =
      ⟨cam.focal_length.x * p.x / p.z + cam.principal_point.x,
       cam.focal_length.y * p.y / p.z + cam.principal_point.y, p.z⟩ ∧
    cam.Project2 p =
      ⟨cam.focal_length.x * p.x / p.z + cam.principal_point.x,
       cam.focal_length.y * p.y / p.z + cam.principal_point.y⟩ ∧
    cam.Project2d p =
      (⟨cam.focal_length.x * p.x / p.z + cam.principal_point.x,
        cam.focal_length.y * p.y / p.z + cam.principal_point.y⟩, p.z) ∧
    cam.Unproject3 q =
      ⟨(q.x - cam.principal_point.x) * q.z / cam.focal_length.x,
       (q.y - cam.principal_point.y) * q.z / cam.focal_length.y, q.z⟩ ∧
    cam.Unproject2d ip d =
      ⟨(ip.x - cam.principal_point.x) * d / cam.focal_length.x,
       (ip.y - cam.principal_point.y) * d / cam.focal_length.y, d⟩ := by
  refine ⟨?_, ?_, ?_, rfl, rfl⟩
  · ext <;> simp [PinholeCamera.Project3] <;> ring
  · ext <;> simp [PinholeCamera.Project2] <;> ring
  · refine Prod.ext ?_ rfl
    ext <;> simp [PinholeCamera.Project2d] <;> ring

/-- C3 witness: the projection formulas instantiated on the concrete
pinhole camera at the camera-space point `(1, 2, 3)`, the image point
`(4, 5, 6)` and depth 6. -/
theorem pinhole_project_unproject_formulas_witness :
    pinEx.Project3 ⟨1, 2, 3⟩ =
      ⟨pinEx.focal_length.x * 1 / 3 + pinEx.principal_point.x,
       pinEx.focal_length.y * 2 / 3 + pinEx.principal_point.y, 3⟩ ∧
    pinEx.Project2 ⟨1, 2, 3⟩ =
      ⟨pinEx.focal_length.x * 1 / 3 + pinEx.principal_point.x,
       pinEx.focal_length.y * 2 / 3 + pinEx.principal_point.y⟩ ∧
    pinEx.Project2d ⟨1, 2, 3⟩ =
      (⟨pinEx.focal_length.x * 1 / 3 + pinEx.principal_point.x,
        pinEx.focal_length.y * 2 / 3 + pinEx.principal_point.y⟩, 3) ∧
    pinEx.Unproject3 ⟨4, 5, 6⟩ =
      ⟨(4 - pinEx.principal_point.x) * 6 / pinEx.focal_length.x,
       (5 - pinEx.principal_point.y) * 6 / pinEx.focal_length.y, 6⟩ ∧
    pinEx.Unproject2d ⟨4, 5⟩ 6 =
      ⟨(4 - pinEx.principal_point.x) * 6 / pinEx.focal_length.x,
       (5 - pinEx.principal_point.y) * 6 / pinEx.focal_length.y, 6⟩ :=
  pinhole_project_unproject_formulas pinEx ⟨1, 2, 3⟩ ⟨4, 5, 6⟩ ⟨4, 5⟩ 6
    (show (0 : ℝ) < 3 by norm_num)

/-- C2: for a pinhole camera with nonzero focal-length channels,
`Project` (image point plus depth `z`) followed by `Unproject` at that
image point and depth returns the original camera-space point exactly,
for any point with positive depth. -/
theorem pinhole_project_unproject_round_trip (cam : PinholeCamera)
    (p : Vec3) (hfx : cam.focal_length.x ≠ 0) (hfy : cam.focal_length.y ≠ 0)
    (hz : 0 < p.z) :
    cam.Unproject2d (cam.Project2d p).1 (cam.Project2d p).2 = p := by
  have hz' : p.z ≠ 0 := ne_of_gt hz
  ext
  · show (cam.focal_length.x / p.z * p.x + cam.principal_point.x -
        cam.principal_point.x) * p.z / cam.focal_length.x = p.x
    field_simp
    ring
  · show (cam.focal_length.y / p.z * p.y + cam.principal_point.y -
        cam.principal_point.y) * p.z / cam.focal_length.y = p.y
    field_simp
    ring
  · rfl

/-- C2 witness: the round trip instantiated on the concrete pinhole
camera at the camera-space point `(1, 2, 3)`. -/
theorem pinhole_project_unproject_round_trip_witness :
    pinEx.Unproject2d (pinEx.Project2d ⟨1, 2, 3⟩).1 (pinEx.Project2d ⟨1, 2, 3⟩).2
      = ⟨1, 2, 3⟩ :=
  pinhole_project_unproject_round_trip pinEx ⟨1, 2, 3⟩
    (show (1 : ℝ) ≠ 0 by norm_num) (show (1 : ℝ) ≠ 0 by norm_num)
    (show (0 : ℝ) < 3 by norm_num)

/-- C5: on an orthographic camera the ray directions at any two distinct
pixel coordinates are identical — `(0, 0, 1)` in the camera frame, the
pose's third rotation column in the world frame — each world-frame
origin is the pose translation offset by `(x − width·0.5) · x_direc +
(y − height·0.5) · y_direc`, and the two origins differ exactly by
`(x2 − x1) · x_direc + (y2 − y1) · y_direc`. -/
theorem ortho_rays_parallel_origins_offset (cam : OrthoCamera)
    (x1 y1 x2 y2 : ℝ) (hne : (x1, y1) ≠ (x2, y2)) :
    cam.ray_cF x1 y1 = cam.ray_cF x2 y2 ∧
    cam.ray_cF x1 y1 = ⟨0, 0, 1⟩ ∧
    cam.ray_wF x1 y1 = cam.ray_wF x2 y2 ∧
    cam.ray_wF x1 y1 = cam.z_direc ∧
    cam.org_ray_wF x1 y1 = Vec3.add
      (Vec3.add cam.c2w_t (Vec3.smul (x1 - (cam.width : ℝ) * 0.5) cam.x_direc))
      (Vec3.smul (y1 - (cam.height : ℝ) * 0.5) cam.y_direc) ∧
    cam.org_ray_wF x2 y2 = Vec3.add (cam.org_ray_wF x1 y1)
      (Vec3.add (Vec3.smul (x2 - x1) cam.x_direc)
        (Vec3.smul (y2 - y1) cam.y_direc)) := by
  refine ⟨rfl, rfl, rfl, rfl, rfl, ?_⟩
  ext <;> simp [OrthoCamera.org_ray_wF, Vec3.add, Vec3.smul] <;> ring

/-- C5 witness: the parallel-ray property instantiated on the concrete
orthographic camera at the distinct pixels `(0, 0)` and `(1, 2)`. -/
theorem ortho_rays_parallel_origins_offset_witness :
    orthoEx.ray_cF 0 0 = orthoEx.ray_cF 1 2 ∧
    orthoEx.ray_cF 0 0 = ⟨0, 0, 1⟩ ∧
    orthoEx.ray_wF 0 0 = orthoEx.ray_wF 1 2 ∧
    orthoEx.ray_wF 0 0 = orthoEx.z_direc ∧
    orthoEx.org_ray_wF 0 0 = Vec3.add
      (Vec3.add orthoEx.c2w_t (Vec3.smul (0 - (orthoEx.width : ℝ) * 0.5) orthoEx.x_direc))
      (Vec3.smul (0 - (orthoEx.height : ℝ) * 0.5) orthoEx.y_direc) ∧
    orthoEx.org_ray_wF 1 2 = Vec3.add (orthoEx.org_ray_wF 0 0)
      (Vec3.add (Vec3.smul (1 - 0) orthoEx.x_direc)
        (Vec3.smul (2 - 0) orthoEx.y_direc)) :=
  ortho_rays_parallel_origins_offset orthoEx 0 0 1 2
    (by simp [Prod.ext_iff])

/-- C9: on an orthographic camera whose width and height are both even,
the world-frame ray origin is the rigid camera-to-world transform of the
camera-frame ray origin, `org_ray_w = R · org_ray_c + t`; evenness makes
the integer-truncated half-extents of `org_ray_c` agree with the exact
half-extents of `org_ray_w`. -/
theorem ortho_org_ray_frames_agree (cam : OrthoCamera) (R : Mat3)
    (t : Vec3) (x y : ℝ) (hw : Even cam.width) (hh : Even cam.height) :
    (cam.set_c2w R t).org_ray_wF x y =
      Vec3.add ((cam.set_c2w R t).c2w_R.apply ((cam.set_c2w R t).org_ray_cF x y))
        (cam.set_c2w R t).c2w_t := by
  obtain ⟨a, ha⟩ := hw
  obtain ⟨b, hb⟩ := hh
  have hwd : ((Int.tdiv cam.width 2 : Int) : ℝ) = (cam.width : ℝ) * 0.5 := by
    rw [ha, show a + a = 2 * a from by ring, Int.mul_tdiv_cancel_left a (by norm_num)]
    push_cast
    ring
  have hhd : ((Int.tdiv cam.height 2 : Int) : ℝ) = (cam.height : ℝ) * 0.5 := by
    rw [hb, show b + b = 2 * b from by ring, Int.mul_tdiv_cancel_left b (by norm_num)]
    push_cast
    ring
  ext <;>
    simp [OrthoCamera.set_c2w, OrthoCamera.InitRayTable, OrthoCamera.org_ray_wF,
      OrthoCamera.org_ray_cF, Mat3.apply, Vec3.add, Vec3.smul, hwd, hhd] <;>
    ring

/-- C9 witness: the frame agreement instantiated on the concrete 4 × 4
orthographic camera after a pose change, at pixel `(1, 2)`. -/
theorem ortho_org_ray_frames_agree_witness :
    (orthoEx.set_c2w matId ⟨1, 2, 3⟩).org_ray_wF 1 2 =
      Vec3.add ((orthoEx.set_c2w matId ⟨1, 2, 3⟩).c2w_R.apply
          ((orthoEx.set_c2w matId ⟨1, 2, 3⟩).org_ray_cF 1 2))
        (orthoEx.set_c2w matId ⟨1, 2, 3⟩).c2w_t :=
  ortho_org_ray_frames_agree orthoEx matId ⟨1, 2, 3⟩ 1 2
    (by decide) (by decide)

/-- The fov round trip for one axis: with a positive pixel extent `L`
and an angle strictly between 0 and 180 degrees,
`degrees(2·atan(L·0.5 / (L·0.5 / tan(radians θ · 0.5)))) = θ`. -/
theorem fov_round_trip_aux (L θ : ℝ) (hL : 0 < L) (h0 : 0 < θ)
    (h1 : θ < 180) :
    degrees (2 * Real.arctan
      (L * 0.5 / (L * 0.5 / Real.tan (radians θ * 0.5)))) = θ := by
  have hπ : (0 : ℝ) < Real.pi := Real.pi_pos
  have h360 : (0 : ℝ) < Real.pi / 360 := by positivity
  have hφ : radians θ * 0.5 = θ * (Real.pi / 360) := by
    unfold radians
    ring
  have hφ0 : 0 < radians θ * 0.5 := by
    rw [hφ]
    exact mul_pos h0 h360
  have hφlt : radians θ * 0.5 < Real.pi / 2 := by
    rw [hφ]
    calc θ * (Real.pi / 360) < 180 * (Real.pi / 360) :=
          mul_lt_mul_of_pos_right h1 h360
    _ = Real.pi / 2 := by ring
  have htan : 0 < Real.tan (radians θ * 0.5) :=
    Real.tan_pos_of_pos_of_lt_pi_div_two hφ0 hφlt
  have hL2 : (0 : ℝ) < L * 0.5 := by positivity
  have harg : L * 0.5 / (L * 0.5 / Real.tan (radians θ * 0.5))
      = Real.tan (radians θ * 0.5) := by
    rw [div_div_eq_mul_div, mul_comm, mul_div_assoc, div_self hL2.ne', mul_one]
  rw [harg, Real.arctan_tan (by linarith) hφlt, hφ]
  unfold degrees
  field_simp
  ring

/-- C6: for a pinhole camera with positive width and height and any
angle strictly between 0 and 180 degrees, `set_fov_x` followed by
`fov_x` returns the angle, and likewise `set_fov_y` followed by
`fov_y` — the conversion `fov = 2·atan(extent/2 / focal_length)` and
its inverse are symmetric. -/
theorem pinhole_fov_round_trip (cam : PinholeCamera) (θ : ℝ)
    (hw : 0 < cam.width) (hh : 0 < cam.height) (h0 : 0 < θ)
    (h1 : θ < 180) :
    (cam.set_fov_x θ).fov_x = θ ∧ (cam.set_fov_y θ).fov_y = θ := by
  have hwR : (0 : ℝ) < (cam.width : ℝ) := by exact_mod_cast hw
  have hhR : (0 : ℝ) < (cam.height : ℝ) := by exact_mod_cast hh
  constructor
  · show degrees (2 * Real.arctan ((cam.width : ℝ) * 0.5 /
      ((cam.width : ℝ) * 0.5 / Real.tan (radians θ * 0.5)))) = θ
    exact fov_round_trip_aux _ θ hwR h0 h1
  · show degrees (2 * Real.arctan ((cam.height : ℝ) * 0.5 /
      ((cam.height : ℝ) * 0.5 / Real.tan (radians θ * 0.5)))) = θ
    exact fov_round_trip_aux _ θ hhR h0 h1

/-- C6 witness: the fov round trip instantiated on the concrete 2 × 2
pinhole camera at 90 degrees. -/
theorem pinhole_fov_round_trip_witness :
    (pinEx.set_fov_x 90).fov_x = 90 ∧ (pinEx.set_fov_y 90).fov_y = 90 :=
  pinhole_fov_round_trip pinEx 90 (by decide) (by decide)
    (show (0 : ℝ) < 90 by norm_num) (show (90 : ℝ) < 180 by norm_num)

/-- C7 counterexample: a call of `set_size` with non-positive width and
height, and of `set_focal_length` with a non-positive focal length,
completes normally and stores the values unchanged — no configuration
error is raised at the setter call (the setters in the source have no
error path at all). -/
theorem setters_no_validation_counterexample :
    (pinEx.set_size (-5) 0).width = -5 ∧
    (pinEx.set_size (-5) 0).height = 0 ∧
    (pinEx.set_focal_length ⟨-1, -1⟩).focal_length = ⟨-1, -1⟩ ∧
    (orthoEx.set_size 0 (-3)).width = 0 ∧
    (orthoEx.set_size 0 (-3)).height = -3 :=
  ⟨rfl, rfl, rfl, rfl, rfl⟩

/-- C7 amended: the setters perform no validation: a non-positive width
or height passed to `set_size` and a non-positive focal length passed
to `set_focal_length` are accepted and stored unchanged, with no error
raised at the setter call; the code has no configuration-error path
(`set_fov_x`/`set_fov_y` likewise accept any angle). -/
theorem setters_accept_invalid_values (cam : PinholeCamera)
    (ocam : OrthoCamera) (w h : Int) (fl : Vec2)
    (hwh : w ≤ 0 ∨ h ≤ 0) (hfl : fl.x ≤ 0 ∨ fl.y ≤ 0) :
    (cam.set_size w h).width = w ∧ (cam.set_size w h).height = h ∧
    (cam.set_focal_length fl).focal_length = fl ∧
    (ocam.set_size w h).width = w ∧ (ocam.set_size w h).height = h :=
  ⟨rfl, rfl, rfl, rfl, rfl⟩

/-- C7 amended witness: the amended property instantiated on the
concrete cameras with width −5, height 0 and focal length (−1, −1). -/
theorem setters_accept_invalid_values_witness :
    (pinEx.set_size (-5) 0).width = -5 ∧ (pinEx.set_size (-5) 0).height = 0 ∧
    (pinEx.set_focal_length ⟨-1, -1⟩).focal_length = ⟨-1, -1⟩ ∧
    (orthoEx.set_size (-5) 0).width = -5 ∧
    (orthoEx.set_size (-5) 0).height = 0 :=
  setters_accept_invalid_values pinEx orthoEx (-5) 0 ⟨-1, -1⟩
    (Or.inl (by decide)) (Or.inl (show (-1 : ℝ) ≤ 0 by norm_num))

/-- C8: `render` invoked before the mesh is prepared or before a camera
is set fails — it returns `false` and leaves all three output images
untouched; once mesh and camera are ready it returns `true` with the
three outputs allocated and cleared to the camera's resolution, one
value per pixel. -/
theorem render_precondition_and_allocation (r : Renderer)
    (color : ImageBuf (ℕ × ℕ × ℕ)) (depth : ImageBuf ℕ) (mask : ImageBuf ℕ) :
    ((r.mesh_initialized = false ∨ r.camera = none) →
      r.render color depth mask = (false, color, depth, mask)) ∧
    (∀ cam, r.camera = some cam → r.mesh_initialized = true →
      r.render color depth mask =
        (true,
         ⟨cam.width.toNat, cam.height.toNat,
          List.replicate (cam.width.toNat * cam.height.toNat) (0, 0, 0)⟩,
         ⟨cam.width.toNat, cam.height.toNat,
          List.replicate (cam.width.toNat * cam.height.toNat) 0⟩,
         ⟨cam.width.toNat, cam.height.toNat,
          List.replicate (cam.width.toNat * cam.height.toNat) 0⟩)) := by
  constructor
  · rintro (hm | hcam)
    · cases hc : r.camera with
      | none => simp [Renderer.render, hc]
      | some cam => simp [Renderer.render, hc, hm]
    · simp [Renderer.render, hcam]
  · intro cam hcam hm
    simp [Renderer.render, hcam, hm]

end

end Currender
